import Mathlib

/-!
Verification of the ClipBook repository's core components against its
natural-language specification.

JavaScript strings are modelled as lists of UTF-16 code units (`JStr`,
a `List Nat`); JS falsiness of a string is emptiness.  Stateful pieces
(the in-memory rate limiter) are modelled by explicit state passing;
fallible document-store reads are modelled as `Except` values; the
host `URL` parser and `toLocaleString` date formatter are modelled as
function parameters, since they live outside the repository.
-/

/-- JavaScript string: a list of UTF-16 code units. -/
abbrev JStr := List Nat

/-- Embed a Lean string literal as a `JStr` (code points; identical to the
UTF-16 units for the BMP characters used throughout this repository). -/
def js (s : String) : JStr := s.data.map (fun c => c.toNat)

/-- JS `a || b` on strings: a string is falsy exactly when it is empty. -/
def jsOr (a b : JStr) : JStr := if a.isEmpty then b else a

/-- Decimal rendering of a natural number, as in JS template interpolation. -/
def natStr (n : Nat) : JStr := js (toString n)

/-- Whitespace code units trimmed by JS `String.prototype.trim`
(space, tab, line terminators, NBSP, BOM). -/
def isWS (c : Nat) : Bool :=
  c == 9 || c == 10 || c == 11 || c == 12 || c == 13 || c == 32 ||
  c == 160 || c == 8232 || c == 8233 || c == 65279

/-- ASCII lowering of one code unit, as JS `toLowerCase` acts on the
ASCII range used by this code base. -/
def lowerC (c : Nat) : Nat := if 65 ≤ c ∧ c ≤ 90 then c + 32 else c

/-- JS `String.prototype.toLowerCase`. -/
def jsToLower (l : JStr) : JStr := l.map lowerC

/-- JS `String.prototype.trim`: drop leading and trailing whitespace. -/
def jsTrim (l : JStr) : JStr :=
  ((l.dropWhile isWS).reverse.dropWhile isWS).reverse

/-- JS `haystack.includes(needle)` / `indexOf(needle) !== -1`:
substring occurrence test. -/
def infixB (needle hay : JStr) : Bool :=
  hay.tails.any (fun t => needle.isPrefixOf t)

/-- Split a list at every element satisfying `p`, keeping the (possibly
empty) pieces between separators, as JS `String.prototype.split` does. -/
def splitOnPred (p : Nat → Bool) : JStr → List JStr
  | [] => [[]]
  | c :: rest =>
    if p c then [] :: splitOnPred p rest
    else
      match splitOnPred p rest with
      | [] => [[c]]
      | w :: ws => (c :: w) :: ws

/-- JS `s.split(sep)` for a one-character separator. -/
def jsSplit (sep : Nat) (l : JStr) : List JStr := splitOnPred (fun c => c == sep) l

/-- The non-empty maximal whitespace-free words of a string:
JS `s.split(/\s+/).filter(Boolean)`. -/
def wordsOf (l : JStr) : List JStr :=
  (splitOnPred isWS l).filter (fun w => !w.isEmpty)

/-- Word-constituent code unit for the JS regex class `\w`:
`[A-Za-z0-9_]`. -/
def isWordChar (c : Nat) : Bool :=
  (48 ≤ c && c ≤ 57) || (65 ≤ c && c ≤ 90) || (97 ≤ c && c ≤ 122) || c == 95

/-- Stable descending sort by an integer key: the model of JS
`Array.prototype.sort((a, b) => k(b) - k(a))`, which is a stable sort. -/
def sortByDesc (k : α → Int) (l : List α) : List α :=
  List.insertionSort (fun a b => k b ≤ k a) l

/-- Stable ascending sort by an integer key: the model of JS
`Array.prototype.sort((a, b) => k(a) - k(b))`. -/
def sortByAsc (k : α → Int) (l : List α) : List α :=
  List.insertionSort (fun a b => k a ≤ k b) l

/-!
## Rate limiter

From `functions/hfChat.js`:

```js
const WINDOW_MS = 60_000;
const MAX_REQ = 20;            // 15 in the HF (TypeScript) variant
const buckets = {};
function withinLimit(uid) {
  const now = Date.now();
  const arr = buckets[uid] || [];
  const recent = arr.filter((t) => now - t < WINDOW_MS);
  if (recent.length >= MAX_REQ) { buckets[uid] = recent; return false; }
  recent.push(now);
  buckets[uid] = recent;
  return true;
}
```

The per-user bucket is passed explicitly; the result is the returned
boolean together with the bucket stored back for that user.
-/

def WINDOW_MS : Int := 60000

/-- Cap in the rule-based variant (`functions/hfChat.js`). -/
def MAX_REQ_rule : Nat := 20

/-- Cap in the HF variant (`functions/src/hfChat.ts`). -/
def MAX_REQ_hf : Nat := 15

/-- Model of `const recent = arr.filter((t) => now - t < WINDOW_MS)`. -/
def recentOf (W : Int) (now : Int) (arr : List Int) : List Int :=
  arr.filter (fun t => decide (now - t < W))

/-- One call of `withinLimit`, parametrised by window `W`, cap `N`, the
current time `now` and the stored bucket `arr`; returns the accept
decision and the bucket written back. -/
def withinLimit (W : Int) (N : Nat) (now : Int) (arr : List Int) : Bool × List Int :=
  if N ≤ (recentOf W now arr).length then (false, recentOf W now arr)
  else (true, recentOf W now arr ++ [now])

/-- Run a sequence of calls (with their timestamps) through the rate
limiter, starting from bucket `bucket`; returns the per-call decisions
and the final bucket. -/
def runCalls (W : Int) (N : Nat) (bucket : List Int) : List Int → List Bool × List Int
  | [] => ([], bucket)
  | t :: ts =>
    let r := withinLimit W N t bucket
    let rest := runCalls W N r.2 ts
    (r.1 :: rest.1, rest.2)

theorem withinLimit_all_window (W : Int) (N : Nat) (now : Int) (arr : List Int)
    (hW : 0 < W) :
    ((withinLimit W N now arr).2).all (fun t => decide (now - t < W)) = true := by
  unfold withinLimit
  split
  · exact List.all_eq_true.mpr fun x hx => (List.mem_filter.mp hx).2
  · simp only [recentOf, List.all_append, Bool.and_eq_true, List.all_cons, List.all_nil,
      Bool.and_true]
    refine ⟨List.all_eq_true.mpr fun x hx => (List.mem_filter.mp hx).2, ?_⟩
    simpa using hW

theorem withinLimit_len (W : Int) (N : Nat) (now : Int) (arr : List Int)
    (hlen : arr.length ≤ N) :
    ((withinLimit W N now arr).2).length ≤ N := by
  unfold withinLimit
  split
  · exact le_trans (List.length_filter_le _ _) hlen
  · rename_i h
    have := Nat.lt_of_not_le h
    simp only [List.length_append, List.length_cons, List.length_nil]
    omega

theorem withinLimit_reject_sublist (W : Int) (N : Nat) (now : Int) (arr : List Int) :
    (withinLimit W N now arr).1 = true ∨ (withinLimit W N now arr).2.Sublist arr := by
  unfold withinLimit
  split
  · exact Or.inr (List.filter_sublist arr)
  · exact Or.inl rfl

theorem runCalls_all_accept (W : Int) (N : Nat) :
    ∀ (ts B : List Int),
      (∀ t ∈ ts, ∀ b ∈ B, t - b < W) →
      (∀ x ∈ ts, ∀ y ∈ ts, y - x < W) →
      B.length + ts.length ≤ N →
      runCalls W N B ts = (List.replicate ts.length true, B ++ ts)
  | [], B, _, _, _ => by simp [runCalls]
  | u :: us, B, hfil, hspread, hlen => by
    have hrec : recentOf W u B = B :=
      List.filter_eq_self.mpr (fun p hp => by
        simpa using hfil u (by simp) p hp)
    have hBlt : ¬ N ≤ (recentOf W u B).length := by
      rw [hrec]
      simp only [List.length_cons] at hlen; omega
    have hstep : withinLimit W N u B = (true, B ++ [u]) := by
      unfold withinLimit
      rw [if_neg hBlt, hrec]
    have hfil' : ∀ p ∈ us, ∀ q ∈ B ++ [u], p - q < W := by
      intro p hp q hq
      rcases List.mem_append.mp hq with hB | hsing
      · exact hfil p (by simp [hp]) q hB
      · have hqu : q = u := by simpa using hsing
        subst hqu
        exact hspread q (by simp) p (by simp [hp])
    have hspread' : ∀ x ∈ us, ∀ y ∈ us, y - x < W := by
      intro x hx y hy
      exact hspread x (by simp [hx]) y (by simp [hy])
    have hlen' : (B ++ [u]).length + us.length ≤ N := by
      simp only [List.length_append, List.length_cons, List.length_nil] at *
      omega
    have ih := runCalls_all_accept W N us (B ++ [u]) hfil' hspread' hlen'
    simp only [runCalls, hstep, ih]
    simp [List.replicate_succ]

theorem runCalls_append (W : Int) (N : Nat) :
    ∀ (l1 l2 B : List Int),
      runCalls W N B (l1 ++ l2) =
        ((runCalls W N B l1).1 ++ (runCalls W N (runCalls W N B l1).2 l2).1,
          (runCalls W N (runCalls W N B l1).2 l2).2)
  | [], l2, B => by simp [runCalls]
  | t :: l1, l2, B => by
    have ih := runCalls_append W N l1 l2 (withinLimit W N t B).2
    simp only [List.cons_append, runCalls, List.append_eq] at ih ⊢
    rw [ih]

theorem runCalls_reject_last (W : Int) (N : Nat) (ts : List Int)
    (hlen : ts.length = N + 1)
    (hspread : ∀ x ∈ ts, ∀ y ∈ ts, y - x < W) :
    (runCalls W N [] ts).1 = List.replicate N true ++ [false] := by
  obtain ⟨tN, hdrop⟩ : ∃ a, ts.drop N = [a] := by
    apply List.length_eq_one.mp
    simp [hlen]
  have htake : (ts.take N).length = N := by
    simp [hlen]
  have hsplit : ts.take N ++ [tN] = ts := by
    rw [← hdrop]; exact List.take_append_drop N ts
  have htsub : ∀ x ∈ ts.take N, x ∈ ts := fun x hx => List.take_subset N ts hx
  have htN : tN ∈ ts := by
    have : tN ∈ ts.drop N := by simp [hdrop]
    exact List.drop_subset N ts this
  have hfirst : runCalls W N [] (ts.take N) = (List.replicate N true, ts.take N) := by
    have := runCalls_all_accept W N (ts.take N) []
      (fun t _ b hb => absurd hb (List.not_mem_nil b))
      (fun x hx y hy => hspread x (htsub x hx) y (htsub y hy))
      (by simp [htake])
    simpa [htake] using this
  have hlast : withinLimit W N tN (ts.take N) = (false, ts.take N) := by
    have hrec : recentOf W tN (ts.take N) = ts.take N :=
      List.filter_eq_self.mpr (fun b hb => by
        simpa using hspread b (htsub b hb) tN htN)
    unfold withinLimit
    rw [hrec, if_pos (by omega)]
  calc (runCalls W N [] ts).1
      = (runCalls W N [] (ts.take N ++ [tN])).1 := by rw [hsplit]
    _ = List.replicate N true ++ [false] := by
        rw [runCalls_append W N (ts.take N) [tN] []]
        simp [hfirst, runCalls, hlast]

/-- Claim C1: for the rate limiter `withinLimit` with window `W` (60,000 ms)
and cap `N` (20 in the rule-based variant, 15 in the HF variant), on each
call every timestamp kept in the stored bucket is within `W` of the call's
current time (older entries are dropped); starting from an empty bucket,
a run of `N + 1` calls all lying within `W` of one another accepts the
first `N` and rejects the `(N+1)`-th; and a call whose current time is at
least `W` past the oldest entry `b` of a bucket of at most `N` entries is
accepted. -/
theorem rate_limit_window_and_cap (W : Int) (N : Nat) (now : Int)
    (arr ts rest : List Int) (b : Int)
    (hW : 0 < W)
    (hlen : ts.length = N + 1)
    (hspread : ∀ x ∈ ts, ∀ y ∈ ts, y - x < W)
    (hblen : (b :: rest).length ≤ N)
    (hbold : ∀ x ∈ rest, b ≤ x)
    (helapsed : W ≤ now - b) :
    ((withinLimit W N now arr).2).all (fun t => decide (now - t < W)) = true
    ∧ (runCalls W N [] ts).1 = List.replicate N true ++ [false]
    ∧ (withinLimit W N now (b :: rest)).1 = true := by
  refine ⟨withinLimit_all_window W N now arr hW,
    runCalls_reject_last W N ts hlen hspread, ?_⟩
  have hdroph : decide (now - b < W) = false := by
    simp only [decide_eq_false_iff_not, not_lt]
    omega
  have hreclen : (recentOf W now (b :: rest)).length < N := by
    have : recentOf W now (b :: rest) = recentOf W now rest := by
      simp [recentOf, List.filter_cons, hdroph]
    rw [this]
    have h1 := List.length_filter_le (fun t => decide (now - t < W)) rest
    simp only [List.length_cons] at hblen
    simp only [recentOf]
    omega
  unfold withinLimit
  rw [if_neg (Nat.not_le_of_lt hreclen)]

/-- Witness for C1 at the rule-based constants: window 60,000, cap 20,
21 calls at time 0 from an empty bucket, and a one-entry bucket probed
60,000 ms after its only (hence oldest) timestamp. -/
theorem rate_limit_window_and_cap_witness :
    ((withinLimit WINDOW_MS MAX_REQ_rule 60000 [0]).2).all
        (fun t => decide (60000 - t < WINDOW_MS)) = true
    ∧ (runCalls WINDOW_MS MAX_REQ_rule [] (List.replicate 21 0)).1 =
        List.replicate MAX_REQ_rule true ++ [false]
    ∧ (withinLimit WINDOW_MS MAX_REQ_rule 60000 [0]).1 = true :=
  rate_limit_window_and_cap WINDOW_MS MAX_REQ_rule 60000 [0]
    (List.replicate 21 0) [] 0
    (by decide) (by decide) (by decide) (by decide)
    (by intro x hx; simp at hx) (by decide)

/-- Claim C9: bucket invariant of the rate limiter.  If the stored bucket
has at most `N` entries then after any call (accepted or rejected) the
written-back bucket still has at most `N` entries, every stored timestamp
is within `W` of the call's current time, and a rejected call adds no new
timestamp (the new bucket is a sublist of the old one). -/
theorem withinLimit_bucket_invariant (W : Int) (N : Nat) (now : Int)
    (arr : List Int) (hlen : arr.length ≤ N) (hW : 0 < W) :
    ((withinLimit W N now arr).2).length ≤ N
    ∧ ((withinLimit W N now arr).2).all (fun t => decide (now - t < W)) = true
    ∧ ((withinLimit W N now arr).1 = true ∨ (withinLimit W N now arr).2.Sublist arr) :=
  ⟨withinLimit_len W N now arr hlen,
    withinLimit_all_window W N now arr hW,
    withinLimit_reject_sublist W N now arr⟩

/-- Witness for C9: a two-entry bucket, window 60,000 and cap 20, probed
at time 70,000 (so that the first entry is stale and dropped). -/
theorem withinLimit_bucket_invariant_witness :
    ((withinLimit WINDOW_MS MAX_REQ_rule 70000 [0, 50000]).2).length ≤ MAX_REQ_rule
    ∧ ((withinLimit WINDOW_MS MAX_REQ_rule 70000 [0, 50000]).2).all
        (fun t => decide (70000 - t < WINDOW_MS)) = true
    ∧ ((withinLimit WINDOW_MS MAX_REQ_rule 70000 [0, 50000]).1 = true
        ∨ (withinLimit WINDOW_MS MAX_REQ_rule 70000 [0, 50000]).2.Sublist [0, 50000]) :=
  withinLimit_bucket_invariant WINDOW_MS MAX_REQ_rule 70000 [0, 50000]
    (by decide) (by decide)

/-!
## Rule-based responder (`functions/hfChat.js`)

Clips are Firestore documents; the fields used by the responder are
modelled below, with the empty string standing for a missing/empty field
(both are falsy in JS).
-/

structure Clip where
  customTitle : JStr
  title : JStr
  originalUrl : JStr
  description : JStr
  tags : List JStr
deriving DecidableEq

/-- Model of `function normalize(s) { return (s || "").toString().toLowerCase(); }` -/
def normalizeJS (s : JStr) : JStr := jsToLower s

/-- Model of `scoreText(query, text)`: bag-of-words overlap score — the number of
whitespace-separated words of the (lowercased) query occurring as
substrings of the lowercased text. -/
def scoreText (query text : JStr) : Nat :=
  if query.isEmpty || text.isEmpty then 0
  else ((wordsOf (normalizeJS query)).filter (fun w => infixB w (normalizeJS text))).length

/-- Model of `shortText(s, n)`: truncate to `n` units, trim, and append `"..."`. -/
def shortText (s : JStr) (n : Nat) : JStr :=
  if s.isEmpty then []
  else if s.length ≤ n then s
  else jsTrim (s.take n) ++ js "..."

/-- Model of `detectIntent(message)`: keyword-based intent classification. -/
def detectIntent (message : JStr) : JStr :=
  let m := normalizeJS message
  if infixB (js "summar") m || infixB (js "overview") m || infixB (js "summary") m then
    js "summarize"
  else if infixB (js "recommend") m || infixB (js "next") m ||
      infixB (js "what next") m || infixB (js "suggest") m then
    js "recommend"
  else if infixB (js "quiz") m || infixB (js "question") m || infixB (js "test me") m then
    js "quiz"
  else if infixB (js "plan") m || infixB (js "study plan") m then
    js "plan"
  else if infixB (js "find") m || infixB (js "search") m || infixB (js "which") m ||
      infixB (js "where") m || infixB (js "?") m then
    js "search"
  else js "search"

/-- Insertion-ordered occurrence counting: the model of incrementing
`freq[w] = (freq[w] || 0) + 1` on a plain JS object (string keys keep
insertion order). -/
def bump : List (JStr × Nat) → JStr → List (JStr × Nat)
  | [], k => [(k, 1)]
  | (k', n) :: rest, k =>
    if k' = k then (k', n + 1) :: rest else (k', n) :: bump rest k

/-- Model of `summarizeClips(clips)`. -/
def summarizeClips (clips : List Clip) : JStr :=
  if clips.isEmpty then js "No clips found in this playlist."
  else
    let top := clips.take 5
    let bullets := top.mapIdx (fun i c =>
      natStr (i + 1) ++ js ". " ++
      jsOr (jsOr c.customTitle c.title) (shortText (jsOr c.originalUrl (js "Untitled")) 40) ++
      js " — " ++ shortText (jsOr c.description []) 120)
    let titles := List.intercalate (js " ")
      (top.map (fun c => jsOr (jsOr c.customTitle c.title) []))
    let words := (splitOnPred (fun c => !isWordChar c) (jsToLower titles)).filter
      (fun w => decide (3 < w.length))
    let freq := words.foldl bump []
    let topWords := ((sortByDesc (fun p => (p.2 : Int)) freq).take 3).map (fun p => p.1)
    js "This playlist covers: " ++
      (if topWords.isEmpty then js "various topics" else List.intercalate (js ", ") topWords) ++
      js ". Key videos:\n" ++ List.intercalate (js "\n") bullets

/-- Model of `recommendClip(clips, previousTitles)`: first clip whose title is not
among the (lowercased) previous titles, else the most recent clip. -/
def recommendClip (clips : List Clip) (previousTitles : List JStr) : Option Clip :=
  if clips.isEmpty then none
  else
    let lowerPrev := previousTitles.map normalizeJS
    match clips.find? (fun c => !lowerPrev.contains (normalizeJS (jsOr (jsOr c.customTitle c.title) []))) with
    | some c => some c
    | none => clips.head?

/-- Model of `generateQuiz(clips, num)`. -/
def generateQuiz (clips : List Clip) (num : Nat) : List JStr :=
  if clips.isEmpty then [js "No clips available for quiz."]
  else
    (clips.take (min num clips.length)).map (fun c =>
      js "What is the main topic of \"" ++
      shortText (jsOr (jsOr c.customTitle c.title) (js "Untitled")) 60 ++ js "\"?")

/-- The searched text of a clip: `(c.customTitle || c.title || "") + " " +
(c.description || "")` — note that tags are NOT included. -/
def searchText (c : Clip) : JStr :=
  jsOr (jsOr c.customTitle c.title) [] ++ js " " ++ jsOr c.description []

/-- The scored, positively-matching clips of `searchClips`, in original
(recency) order: `clips.map(c => ({clip: c, score: ...})).filter(x => x.score > 0)`. -/
def searchScored (clips : List Clip) (query : JStr) : List (Clip × Nat) :=
  (clips.map (fun c => (c, scoreText query (searchText c)))).filter
    (fun x => decide (0 < x.2))

/-- Model of `searchClips(clips, query, limit)`: positive-scoring clips, stably
sorted by descending score, first `limit` of them. -/
def searchClips (clips : List Clip) (query : JStr) (limit : Nat) : List Clip :=
  ((sortByDesc (fun x : Clip × Nat => (x.2 : Int)) (searchScored clips query)).take limit).map
    (fun x => x.1)

/-- One day line of the 3-day study plan. -/
def planDay (slice : List Clip) : JStr :=
  List.intercalate (js ", ")
    (slice.mapIdx (fun i c =>
      natStr (i + 1) ++ js ". " ++ jsOr (jsOr c.customTitle c.title) (js "Untitled")))

/-- The `plan` intent's reply. -/
def planReply (clips : List Clip) : JStr :=
  let items := clips.take 6
  List.intercalate (js "\n")
    [js "Study plan for this playlist (" ++ natStr items.length ++ js " clips):",
     js "Day 1: Watch " ++ planDay (items.take 2),
     js "Day 2: Watch " ++ jsOr (planDay ((items.drop 2).take 2)) (js "No clips"),
     js "Day 3: Watch " ++ jsOr (planDay ((items.drop 4).take 2)) (js "No clips"),
     js "Tip: Take notes and try a short recap after each video."]

/-- The generic fallback reply of the callable. -/
def fallbackReply : JStr :=
  js "I couldn\x27t find direct matches. Try asking:\n- \"summarize playlist\"\n- \"recommend next\"\n- \"quiz me\"\nOr include keywords from the video title or description."

/-- The default search/match branch of the callable. -/
def searchReply (clips : List Clip) (message : JStr) : JStr :=
  if !clips.isEmpty then
    let found := searchClips clips message 5
    if !found.isEmpty then
      js "Found " ++ natStr found.length ++ js " relevant clips:\n\n" ++
      List.intercalate (js "\n\n")
        (found.mapIdx (fun i c =>
          natStr (i + 1) ++ js ". " ++ jsOr (jsOr c.customTitle c.title) (js "Untitled") ++
          js " — " ++ shortText (jsOr c.description []) 160 ++
          js "\nLink: " ++ jsOr c.originalUrl (js "N/A")))
    else fallbackReply
  else fallbackReply

/-- The reply of `exports.hfChat`'s intent dispatch, given the fetched
clips and the user's message (rate limiting and the Firestore fetch are
handled before this dispatch in the source). -/
def hfChatRespond (clips : List Clip) (message : JStr) : JStr :=
  let intent := detectIntent message
  if intent == js "summarize" then summarizeClips clips
  else if intent == js "recommend" then
    match recommendClip clips [] with
    | none => js "No clips found to recommend."
    | some rec =>
      js "Recommended: " ++ jsOr (jsOr rec.customTitle rec.title) rec.originalUrl ++
      js "\n\n" ++ shortText (jsOr rec.description (js "No description")) 300 ++
      js "\n\nLink: " ++ jsOr rec.originalUrl (js "N/A")
  else if intent == js "quiz" then
    js "Quiz:\n" ++ List.intercalate (js "\n")
      ((generateQuiz clips 5).mapIdx (fun i x => natStr (i + 1) ++ js ". " ++ x))
  else if intent == js "plan" then planReply clips
  else searchReply clips message

set_option maxRecDepth 10000

/-- Claim C2: with an empty clip list, the rule-based responder's
summarize, recommend, quiz and plan branches each return a fixed,
deterministic "no clips" message.  (The Lean embedding is total, so no
branch can throw.) -/
theorem ruleChat_empty_playlist_messages :
    hfChatRespond [] (js "summarize") = js "No clips found in this playlist."
    ∧ hfChatRespond [] (js "recommend") = js "No clips found to recommend."
    ∧ hfChatRespond [] (js "quiz") = js "Quiz:\n1. No clips available for quiz."
    ∧ hfChatRespond [] (js "plan") =
        js "Study plan for this playlist (0 clips):\nDay 1: Watch \nDay 2: Watch No clips\nDay 3: Watch No clips\nTip: Take notes and try a short recap after each video." := by
  refine ⟨by decide, by decide, by decide, by decide⟩

/-- Claim C10: `recommendClip` with an empty `previousTitles` list returns
the first (most recent) clip, and since the callable's recommend branch
always passes `[]`, its reply for `c :: cs` ignores every clip after the
first. -/
theorem recommendClip_head_of_empty_prev (clips cs : List Clip) (c : Clip) :
    recommendClip clips [] = clips.head?
    ∧ hfChatRespond (c :: cs) (js "recommend next") = hfChatRespond [c] (js "recommend next") := by
  refine ⟨by cases clips <;> rfl, rfl⟩

/-- Modelled from the spec/claim wording for the search fallback, which
says query words are counted "as substrings in title+description+tags":
identical to `searchText` except that the clip's tags are included. -/
def searchTextClaim (c : Clip) : JStr :=
  jsOr (jsOr c.customTitle c.title) [] ++ js " " ++ jsOr c.description [] ++
  js " " ++ List.intercalate (js " ") c.tags

/-- The search pipeline as the claim describes it (scoring over
title + description + tags). -/
def searchClipsClaim (clips : List Clip) (query : JStr) (limit : Nat) : List Clip :=
  ((sortByDesc (fun x : Clip × Nat => (x.2 : Int))
      ((clips.map (fun c => (c, scoreText query (searchTextClaim c)))).filter
        (fun x => decide (0 < x.2)))).take limit).map (fun x => x.1)

/-- A clip whose only occurrence of the query word is in its tags. -/
def searchCexClip : Clip := ⟨js "pasta", [], [], [], [js "cooking"]⟩

/-- Counterexample for C3 as stated: for the query "cooking" and a clip
carrying the tag "cooking" (but no occurrence in title or description),
the code's `searchClips` returns nothing, whereas the claimed
tags-inclusive scoring would return the clip. -/
theorem searchClips_tags_counterexample :
    searchClips [searchCexClip] (js "cooking") 5 = []
    ∧ searchClipsClaim [searchCexClip] (js "cooking") 5 = [searchCexClip] :=
  ⟨by decide, by decide⟩

theorem mem_searchScored {clips : List Clip} {q : JStr} {x : Clip × Nat}
    (h : x ∈ searchScored clips q) :
    x.2 = scoreText q (searchText x.1) ∧ 0 < x.2 := by
  unfold searchScored at h
  have h1 := List.mem_filter.mp h
  obtain ⟨c, _, hc⟩ := List.mem_map.mp h1.1
  refine ⟨?_, by simpa using h1.2⟩
  rw [← hc]

theorem filter_key_orderedInsert (k : α → Int) (v : Int) (x : α) :
    ∀ l : List α,
      (List.orderedInsert (fun a b => k b ≤ k a) x l).filter (fun y => decide (k y = v)) =
        if k x = v then x :: l.filter (fun y => decide (k y = v))
        else l.filter (fun y => decide (k y = v))
  | [] => by
    by_cases hx : k x = v <;> simp [List.orderedInsert, List.filter_cons, hx]
  | b :: l => by
    simp only [List.orderedInsert]
    split <;> rename_i hle
    · by_cases hx : k x = v <;> simp [List.filter_cons, hx]
    · have hlt : k x < k b := lt_of_not_le hle
      rw [List.filter_cons, filter_key_orderedInsert k v x l, List.filter_cons]
      by_cases hb : k b = v
      · have hx : ¬ k x = v := by omega
        simp [hb, hx]
      · by_cases hx : k x = v <;> simp [hb, hx]

theorem filter_key_sortByDesc (k : α → Int) (v : Int) :
    ∀ l : List α,
      (sortByDesc k l).filter (fun y => decide (k y = v)) =
        l.filter (fun y => decide (k y = v))
  | [] => rfl
  | b :: l => by
    show (List.orderedInsert _ b (List.insertionSort _ l)).filter _ = _
    rw [filter_key_orderedInsert k v b (List.insertionSort (fun a b => k b ≤ k a) l)]
    have ih := filter_key_sortByDesc k v l
    unfold sortByDesc at ih
    rw [ih, List.filter_cons]
    split <;> rename_i hb
    · rw [if_pos (by simpa using hb)]
    · rw [if_neg (by simpa using hb)]

theorem sortByDesc_sorted (k : α → Int) (l : List α) :
    (sortByDesc k l).Pairwise (fun a b => k b ≤ k a) := by
  letI : IsTotal α (fun a b => k b ≤ k a) := ⟨fun a b => le_total (k b) (k a)⟩
  letI : IsTrans α (fun a b => k b ≤ k a) := ⟨fun _ _ _ h1 h2 => le_trans h2 h1⟩
  exact List.sorted_insertionSort _ l

theorem sortByDesc_perm (k : α → Int) (l : List α) : (sortByDesc k l).Perm l :=
  List.perm_insertionSort _ l

/-- Claim C3 (amended): the rule-based search fallback scores each clip by
counting how many whitespace-separated words of the query occur
(case-insensitively) as substrings of the clip's title + description —
tags are NOT searched — keeps only positive scores, and returns the top 5
by descending score with ties kept in the original (recency) order.
Stated as: the result has at most 5 clips, all with positive score, with
scores in descending order; the sorted list is, for every fixed score
value, the subsequence of equal-scored clips in original order; and every
clip beyond the first five scores no higher than any returned one. -/
theorem searchClips_top5_desc_stable (clips : List Clip) (q : JStr) :
    (searchClips clips q 5).length ≤ 5
    ∧ (searchClips clips q 5).all
        (fun c => decide (0 < scoreText q (searchText c))) = true
    ∧ ((searchClips clips q 5).map
        (fun c => scoreText q (searchText c))).Pairwise (fun a b => b ≤ a)
    ∧ (∀ v : Int,
        (sortByDesc (fun x : Clip × Nat => (x.2 : Int)) (searchScored clips q)).filter
            (fun y => decide ((y.2 : Int) = v)) =
          (searchScored clips q).filter (fun y => decide ((y.2 : Int) = v)))
    ∧ ((sortByDesc (fun x : Clip × Nat => (x.2 : Int)) (searchScored clips q)).drop 5).all
        (fun b =>
          ((sortByDesc (fun x : Clip × Nat => (x.2 : Int)) (searchScored clips q)).take 5).all
            (fun a => decide (b.2 ≤ a.2))) = true := by
  set key : Clip × Nat → Int := fun x => (x.2 : Int) with hkey
  set scored := searchScored clips q with hscored
  set sorted := sortByDesc key scored with hsorted
  have hperm : sorted.Perm scored := sortByDesc_perm key scored
  have hmem : ∀ x ∈ sorted, x.2 = scoreText q (searchText x.1) ∧ 0 < x.2 := by
    intro x hx
    exact mem_searchScored (hperm.mem_iff.mp hx)
  have hpair : sorted.Pairwise (fun a b => key b ≤ key a) := sortByDesc_sorted key scored
  have hsc : searchClips clips q 5 = (sorted.take 5).map (fun x => x.1) := rfl
  refine ⟨?_, ?_, ?_, fun v => filter_key_sortByDesc key v scored, ?_⟩
  · rw [hsc]
    simp only [List.length_map]
    exact List.length_take_le 5 _
  · rw [hsc]
    refine List.all_eq_true.mpr ?_
    intro c hc
    obtain ⟨x, hx, hxc⟩ := List.mem_map.mp hc
    have hx' := hmem x (List.take_subset 5 sorted hx)
    subst hxc
    simpa using hx'.1 ▸ hx'.2
  · rw [hsc, List.map_map]
    have hcongr : (sorted.take 5).map ((fun c => scoreText q (searchText c)) ∘ (fun x => x.1)) =
        (sorted.take 5).map (fun x => x.2) := by
      refine List.map_congr_left ?_
      intro x hx
      exact ((hmem x (List.take_subset 5 sorted hx)).1).symm
    rw [hcongr]
    refine List.pairwise_map.mpr ?_
    have htake : (sorted.take 5).Pairwise (fun a b => key b ≤ key a) :=
      hpair.sublist (List.take_sublist 5 sorted)
    exact htake.imp (fun h => Nat.cast_le.mp h)
  · have hsplit : sorted.take 5 ++ sorted.drop 5 = sorted := List.take_append_drop 5 sorted
    have hpair' : (sorted.take 5 ++ sorted.drop 5).Pairwise (fun a b => key b ≤ key a) := by
      rw [hsplit]; exact hpair
    have hrel := (List.pairwise_append.mp hpair').2.2
    refine List.all_eq_true.mpr ?_
    intro b hb
    refine List.all_eq_true.mpr ?_
    intro a ha
    have := hrel a ha b hb
    simpa [hkey] using this

/-!
## Tag normalization (`src/Login.jsx`)

```js
const normalizeTag = (t) => (t || "").toString().trim().toLowerCase();
...
tags = Array.from(new Set(tags.map(normalizeTag))).filter(Boolean).slice(0, 3);
```
-/

/-- Model of `normalizeTag`: trim, then lowercase. -/
def normalizeTag (t : JStr) : JStr := jsToLower (jsTrim t)

/-- First-occurrence deduplication with an accumulator of already-seen
values: the model of `Array.from(new Set(xs))` (JS sets keep insertion
order). -/
def dedupGo (seen : List JStr) : List JStr → List JStr
  | [] => []
  | x :: xs => if x ∈ seen then dedupGo seen xs else x :: dedupGo (x :: seen) xs

/-- Model of `Array.from(new Set(xs))`. -/
def jsSetToArray (l : List JStr) : List JStr := dedupGo [] l

/-- The survivors of the tag pipeline before truncation: normalized,
deduplicated, empties dropped. -/
def survivingTags (tags : List JStr) : List JStr :=
  (jsSetToArray (tags.map normalizeTag)).filter (fun t => !t.isEmpty)

/-- The full tag pipeline of `saveResult`:
`Array.from(new Set(tags.map(normalizeTag))).filter(Boolean).slice(0, 3)`. -/
def finalizeTags (tags : List JStr) : List JStr := (survivingTags tags).take 3

theorem lowerC_idem (c : Nat) : lowerC (lowerC c) = lowerC c := by
  simp only [lowerC]
  split_ifs <;> omega

theorem isWS_lowerC (c : Nat) : isWS (lowerC c) = isWS c := by
  simp only [lowerC]
  split_ifs with h
  · have h1 : isWS (c + 32) = false := by
      simp only [isWS, Bool.or_eq_false_iff, beq_eq_false_iff_ne, ne_eq]
      omega
    have h2 : isWS c = false := by
      simp only [isWS, Bool.or_eq_false_iff, beq_eq_false_iff_ne, ne_eq]
      omega
    rw [h1, h2]
  · rfl

theorem dropWhile_idem (p : Nat → Bool) (l : JStr) :
    (l.dropWhile p).dropWhile p = l.dropWhile p := by
  induction l with
  | nil => rfl
  | cons c t ih =>
    by_cases hp : p c = true
    · simp [List.dropWhile_cons, hp, ih]
    · simp [List.dropWhile_cons, hp]

theorem dropWhile_head_false (p : Nat → Bool) (l : JStr) (x : Nat)
    (hx : (l.dropWhile p).head? = some x) : p x = false := by
  induction l with
  | nil => simp at hx
  | cons c t ih =>
    by_cases hp : p c = true
    · rw [List.dropWhile_cons, if_pos hp] at hx
      exact ih hx
    · rw [List.dropWhile_cons, if_neg hp] at hx
      have : c = x := by simpa using hx
      subst this
      simpa using hp

theorem dropWhile_eq_self_of_head (p : Nat → Bool) (l : JStr)
    (h : ∀ x, l.head? = some x → p x = false) : l.dropWhile p = l := by
  cases l with
  | nil => rfl
  | cons c t =>
    rw [List.dropWhile_cons, if_neg]
    simp [h c rfl]

theorem jsTrim_front_settled (l : JStr) : (jsTrim l).dropWhile isWS = jsTrim l := by
  apply dropWhile_eq_self_of_head
  intro x hx
  have hpre : jsTrim l <+: l.dropWhile isWS := by
    unfold jsTrim
    have hsuf : ((l.dropWhile isWS).reverse.dropWhile isWS) <:+ (l.dropWhile isWS).reverse :=
      List.dropWhile_suffix isWS
    have := List.reverse_prefix.mpr hsuf
    simpa using this
  obtain ⟨t, ht⟩ := hpre
  have hhead : (l.dropWhile isWS).head? = some x := by
    rw [← ht]
    cases hjt : jsTrim l with
    | nil => rw [hjt] at hx; simp at hx
    | cons b bs =>
      rw [hjt] at hx
      simp only [List.head?_cons, Option.some.injEq] at hx
      subst hx
      simp
  exact dropWhile_head_false isWS l x hhead

theorem jsTrim_back_settled (l : JStr) :
    (jsTrim l).reverse.dropWhile isWS = (jsTrim l).reverse := by
  unfold jsTrim
  rw [List.reverse_reverse]
  exact dropWhile_idem isWS _

theorem jsTrim_idem (l : JStr) : jsTrim (jsTrim l) = jsTrim l := by
  conv_lhs => rw [jsTrim]
  rw [jsTrim_front_settled, jsTrim_back_settled, List.reverse_reverse]

theorem dropWhile_isWS_map_lowerC (l : JStr) :
    (l.map lowerC).dropWhile isWS = (l.dropWhile isWS).map lowerC := by
  rw [List.dropWhile_map]
  have h : (isWS ∘ lowerC) = isWS := by
    funext c
    exact isWS_lowerC c
  rw [h]

theorem jsTrim_map_lowerC (l : JStr) :
    jsTrim (l.map lowerC) = (jsTrim l).map lowerC := by
  unfold jsTrim
  rw [dropWhile_isWS_map_lowerC, ← List.map_reverse, dropWhile_isWS_map_lowerC,
    ← List.map_reverse]

theorem normalizeTag_idem (t : JStr) : normalizeTag (normalizeTag t) = normalizeTag t := by
  unfold normalizeTag jsToLower
  rw [jsTrim_map_lowerC, jsTrim_idem, List.map_map]
  congr 1
  funext c
  exact lowerC_idem c

theorem mem_of_mem_dedupGo {x : JStr} :
    ∀ {seen l : List JStr}, x ∈ dedupGo seen l → x ∈ l := by
  intro seen l
  induction l generalizing seen with
  | nil => simp [dedupGo]
  | cons y ys ih =>
    intro h
    rw [dedupGo] at h
    split at h
    · exact List.mem_cons_of_mem y (ih h)
    · rcases List.mem_cons.mp h with h1 | h1
      · simp [h1]
      · exact List.mem_cons_of_mem y (ih h1)

theorem dedupGo_nodup_notin :
    ∀ (l seen : List JStr), (dedupGo seen l).Nodup ∧ ∀ x ∈ dedupGo seen l, x ∉ seen
  | [], seen => by simp [dedupGo]
  | y :: ys, seen => by
    rw [dedupGo]
    split <;> rename_i hy
    · exact dedupGo_nodup_notin ys seen
    · obtain ⟨ih1, ih2⟩ := dedupGo_nodup_notin ys (y :: seen)
      refine ⟨List.nodup_cons.mpr ⟨fun hmem => ?_, ih1⟩, ?_⟩
      · exact ih2 y hmem (by simp)
      · intro x hx
        rcases List.mem_cons.mp hx with h1 | h1
        · subst h1; exact hy
        · intro hxs
          exact ih2 x h1 (by simp [hxs])

theorem dedupGo_eq_self :
    ∀ (l seen : List JStr), l.Nodup → (∀ x ∈ l, x ∉ seen) → dedupGo seen l = l
  | [], _, _, _ => rfl
  | y :: ys, seen, hnd, hni => by
    rw [dedupGo, if_neg (hni y (by simp))]
    have hnd' := List.nodup_cons.mp hnd
    rw [dedupGo_eq_self ys (y :: seen) hnd'.2]
    intro x hx
    simp only [List.mem_cons, not_or]
    exact ⟨fun hxy => hnd'.1 (hxy ▸ hx), hni x (by simp [hx])⟩

theorem mem_finalizeTags_surviving {l : List JStr} {x : JStr}
    (hx : x ∈ finalizeTags l) :
    x ∈ jsSetToArray (l.map normalizeTag) ∧ (!x.isEmpty) = true := by
  have hx' : x ∈ survivingTags l := List.take_subset 3 _ hx
  exact List.mem_filter.mp hx'

theorem normalizeTag_fixed_of_mem_finalizeTags {l : List JStr} {x : JStr}
    (hx : x ∈ finalizeTags l) : normalizeTag x = x := by
  have h1 := (mem_finalizeTags_surviving hx).1
  have h2 : x ∈ l.map normalizeTag := mem_of_mem_dedupGo h1
  obtain ⟨y, _, hy⟩ := List.mem_map.mp h2
  rw [← hy, normalizeTag_idem]

/-- Claim C4: the tag pipeline (normalize to lowercase/trimmed, drop
empties, deduplicate first-occurrence, truncate to 3) is idempotent;
its output is duplicate-free, at most 3 long, consists of fixed points
of `normalizeTag` (i.e. already lowercase and trimmed), and is exactly
the first `min 3 k` surviving tags where `k` counts the survivors — so
inputs with more than 3 survivors yield exactly the first 3. -/
theorem finalizeTags_spec (l : List JStr) :
    finalizeTags (finalizeTags l) = finalizeTags l
    ∧ (finalizeTags l).Nodup
    ∧ (finalizeTags l).length ≤ 3
    ∧ (finalizeTags l).all (fun x => normalizeTag x == x) = true
    ∧ finalizeTags l <+: survivingTags l
    ∧ (finalizeTags l).length = min 3 (survivingTags l).length := by
  have hnodup : (finalizeTags l).Nodup := by
    have h1 : (jsSetToArray (l.map normalizeTag)).Nodup :=
      (dedupGo_nodup_notin (l.map normalizeTag) []).1
    have h2 : (survivingTags l).Nodup := List.Nodup.filter _ h1
    exact h2.sublist (List.take_sublist 3 _)
  have hlen : (finalizeTags l).length ≤ 3 := List.length_take_le 3 _
  have hfix : ∀ x ∈ finalizeTags l, normalizeTag x = x :=
    fun x hx => normalizeTag_fixed_of_mem_finalizeTags hx
  refine ⟨?_, hnodup, hlen, ?_, List.take_prefix 3 _, List.length_take 3 _⟩
  · have hmap : (finalizeTags l).map normalizeTag = finalizeTags l := by
      have h := List.map_congr_left (g := fun x => x) hfix
      rw [h, List.map_id']
    have hdedup : jsSetToArray (finalizeTags l) = finalizeTags l :=
      dedupGo_eq_self _ [] hnodup (by simp)
    have hfilter : (finalizeTags l).filter (fun t => !t.isEmpty) = finalizeTags l :=
      List.filter_eq_self.mpr (fun x hx => (mem_finalizeTags_surviving hx).2)
    show ((jsSetToArray ((finalizeTags l).map normalizeTag)).filter
      (fun t => !t.isEmpty)).take 3 = finalizeTags l
    rw [hmap, hdedup, hfilter]
    exact List.take_of_length_le hlen
  · exact List.all_eq_true.mpr fun x hx => by
      simpa using hfix x hx

/-!
## Free (browser rule-based) variant (`src/ChatAI_free.jsx`)
-/

structure FreeClip where
  customTitle : JStr
  originalUrl : JStr
  watchUrl : JStr
  duration : Option Int
  watched : Bool
deriving DecidableEq

/-- Model of `shortText(text, max)` of the free variant. -/
def shortTextFree (text : JStr) (max : Nat) : JStr :=
  if text.isEmpty then []
  else if max < text.length then text.take (max - 1) ++ js "…"
  else text

/-- The candidate selection of the free variant's "recommend" branch:
first unwatched clip (else the first clip), overridden by the
shortest-duration clip when some clip has a numeric duration and that
shortest clip is unwatched. -/
def recommendCandidate (clips : List FreeClip) : Option FreeClip :=
  let base :=
    match clips.find? (fun c => !c.watched) with
    | some c => some c
    | none => clips.head?
  if !(clips.all (fun c => c.duration.isNone)) then
    let withDur := clips.filter (fun c => c.duration.isSome)
    if !withDur.isEmpty then
      match (sortByAsc (fun c => c.duration.getD 0) withDur).head? with
      | some shortOne => if !shortOne.watched then some shortOne else base
      | none => base
    else base
  else base

/-- The full reply of the free variant's "recommend" branch for a
non-empty clip list. -/
def freeRecommendReply (clips : List FreeClip) : JStr :=
  if clips.isEmpty then js "Playlist empty."
  else
    match recommendCandidate clips with
    | none => js "Playlist empty."
    | some cand =>
      js "Recommended next: " ++ jsOr cand.customTitle (shortTextFree cand.originalUrl 60) ++
      js "\nOpen: " ++ jsOr cand.watchUrl (jsOr cand.originalUrl (js "No link available"))

/-- Claim C7: with clips `A` (no duration, unwatched) and `B` (duration 5,
unwatched), the free variant's "recommend next" logic picks clip `B`: the
duration-based tie-break prefers the shortest unwatched clip among clips
with a numeric duration. -/
theorem free_recommend_shortest_unwatched :
    recommendCandidate
        [⟨js "A", [], [], none, false⟩, ⟨js "B", [], [], some 5, false⟩] =
      some ⟨js "B", [], [], some 5, false⟩
    ∧ freeRecommendReply
        [⟨js "A", [], [], none, false⟩, ⟨js "B", [], [], some 5, false⟩] =
      js "Recommended next: B\nOpen: No link available" :=
  ⟨by decide, by decide⟩

/-!
## Context building and read-failure degradation
(`functions/src/hfChat.ts` `buildPlaylistContext`, `functions/hfChat.js`
`fetchPlaylistClips`)

The two Firestore reads (playlist document, clips query) are modelled as
`Except Unit` values: `.error ()` is a throwing read, `.ok v` a
successful one.  Both reads sit inside one `try`; an error in either
makes the whole builder return `""` (resp. `[]`).
-/

structure PlaylistD where
  name : JStr
deriving DecidableEq

/-- A playlist id argument is falsy when absent or empty. -/
def falsyId : Option JStr → Bool
  | none => true
  | some s => s.isEmpty

/-- Model of `buildPlaylistContext(uid, playlistId)` of the HF variant: renders
`Playlist: <name>` and up to 12 clip lines (the 12-limit lives in the
Firestore query, i.e. in `clipsRead` here); missing playlist document
gives an empty name, zero clips give the `(no clips)` marker, and any
read failure degrades to the empty string. -/
def buildPlaylistContext (uid : JStr) (playlistId : Option JStr)
    (plRead : Except Unit (Option PlaylistD)) (clipsRead : Except Unit (List Clip)) : JStr :=
  if uid.isEmpty || falsyId playlistId then []
  else
    match plRead with
    | .error _ => []
    | .ok pl =>
      match clipsRead with
      | .error _ => []
      | .ok clips =>
        let lines := clips.mapIdx (fun i c =>
          natStr (i + 1) ++ js ". " ++ jsOr c.customTitle c.originalUrl ++ js " — " ++
          (jsOr c.description []).take 80)
        let nm := match pl with | none => [] | some p => p.name
        if lines.isEmpty then js "Playlist: " ++ nm ++ js "\n(no clips)\n\n"
        else js "Playlist: " ++ nm ++ js "\n" ++ List.intercalate (js "\n") lines ++ js "\n\n"

/-- Model of `fetchPlaylistClips(uid, playlistId, limit)` of the rule-based
variant: the decoded clip documents, or `[]` on a read failure. -/
def fetchPlaylistClips (uid : JStr) (playlistId : Option JStr)
    (clipsRead : Except Unit (List Clip)) : List Clip :=
  if uid.isEmpty || falsyId playlistId then []
  else
    match clipsRead with
    | .error _ => []
    | .ok clips => clips

/-- Claim C6: a throwing document-store read during context building makes
`buildPlaylistContext` return the empty string — whether the playlist
read or the clips read throws — and makes `fetchPlaylistClips` return the
empty list; the error is never propagated to the caller. -/
theorem context_read_failure_degrades (uid : JStr) (playlistId : Option JStr)
    (e e' : Unit) (plRead : Except Unit (Option PlaylistD))
    (clipsRead : Except Unit (List Clip)) :
    buildPlaylistContext uid playlistId (.error e) clipsRead = js ""
    ∧ buildPlaylistContext uid playlistId plRead (.error e') = js ""
    ∧ fetchPlaylistClips uid playlistId (.error e) = [] := by
  refine ⟨?_, ?_, ?_⟩
  · unfold buildPlaylistContext
    split
    · rfl
    · rfl
  · unfold buildPlaylistContext
    split
    · rfl
    · cases plRead with
      | error _ => rfl
      | ok pl => rfl
  · unfold fetchPlaylistClips
    split
    · rfl
    · rfl

/-!
## Profile context builder (`src/ChatAI_HF.jsx`)

`fmtDate` wraps the host's `toLocaleString` and is therefore passed as a
parameter (`fmtD`); everything else is embedded from the source.
-/

structure UserP where
  displayName : JStr
  email : JStr
  uid : JStr

structure ClipP where
  id : JStr
  customTitle : JStr
  originalUrl : JStr
  watchUrl : JStr
  description : JStr
  videoSite : JStr
  tags : List JStr
  playlistIds : List JStr
  createdAt : Option Int

structure PlaylistP where
  name : JStr

/-- Model of `truncate(s, n)` of `ChatAI_HF.jsx`: keep `n - 1` units and append an
ellipsis when longer than `n`. -/
def truncate (s : JStr) (n : Nat) : JStr :=
  if n < s.length then s.take (n - 1) ++ js "…" else s

/-- One `- [id] Title: ...` sample-clip line (with its optional
`Desc:` continuation line) of the profile context. -/
def sampleLine (fmtD : Option Int → JStr) (c : ClipP) : JStr :=
  js "- [" ++ c.id ++ js "] Title: " ++
  truncate (jsOr c.customTitle (jsOr c.originalUrl (js "No title"))) 140 ++
  js "; Date: " ++ fmtD c.createdAt ++
  js "; Playlists: " ++ List.intercalate (js ",") c.playlistIds ++
  js "; Tags: " ++ List.intercalate (js ",") c.tags ++
  js "; URL: " ++ jsOr c.watchUrl (jsOr c.originalUrl []) ++ js "\n" ++
  (if (truncate (jsOr c.description []) 240).isEmpty then []
   else js "  Desc: " ++ truncate (jsOr c.description []) 240 ++ js "\n")

/-- The profile context text before the final length cap. -/
def profileBody (fmtD : Option Int → JStr) (u : UserP) (clips : List ClipP)
    (playlists : List PlaylistP) : JStr :=
  let siteCounts := clips.foldl (fun m c => bump m (jsOr c.videoSite (js "unknown"))) []
  let tagCounts := clips.foldl (fun m c => c.tags.foldl bump m) []
  let topTags := ((sortByDesc (fun p => (p.2 : Int)) tagCounts).take 6).map
    (fun p => p.1 ++ js "(" ++ natStr p.2 ++ js ")")
  let playlistNames := (playlists.map (fun p => p.name)).take 20
  let sampleClips := (sortByDesc (fun c => c.createdAt.getD 0) clips).take 12
  js "User: " ++ jsOr u.displayName (jsOr u.email u.uid) ++ js "\n" ++
  js "TotalClips: " ++ natStr clips.length ++ js "; Playlists: " ++
    natStr playlists.length ++ js ";\n" ++
  js "BySite: " ++
    jsOr (List.intercalate (js ", ")
      (siteCounts.map (fun p => p.1 ++ js ":" ++ natStr p.2))) (js "none") ++ js "\n" ++
  js "TopTags: " ++ jsOr (List.intercalate (js ", ") topTags) (js "none") ++ js "\n" ++
  js "Playlists: " ++ jsOr (List.intercalate (js " | ") playlistNames) (js "none") ++ js "\n" ++
  js "SampleClips:\n" ++
  ((sampleClips.map (sampleLine fmtD)).flatten)

/-- Model of `buildProfileContext({user, clips, playlists})`: the profile body,
hard-capped at 18,000 units with the `\n…(truncated)` suffix. -/
def buildProfileContext (fmtD : Option Int → JStr) (user : Option UserP)
    (clips : List ClipP) (playlists : List PlaylistP) : JStr :=
  match user with
  | none => js "No user logged in."
  | some u =>
    if 18000 < (profileBody fmtD u clips playlists).length then
      (profileBody fmtD u clips playlists).take 17900 ++ js "\n…(truncated)"
    else profileBody fmtD u clips playlists

/-- Claim C5: for every user/clips/playlists input (and every host date
formatter), the profile context never exceeds the 18,000-unit cap, and
the result is either the no-user message, the untruncated body, or ends
with the `\n…(truncated)` marker. -/
theorem buildProfileContext_capped (fmtD : Option Int → JStr) (user : Option UserP)
    (clips : List ClipP) (playlists : List PlaylistP) :
    (buildProfileContext fmtD user clips playlists).length ≤ 18000
    ∧ (buildProfileContext fmtD user clips playlists = js "No user logged in."
      ∨ (∃ u, user = some u
          ∧ buildProfileContext fmtD user clips playlists = profileBody fmtD u clips playlists)
      ∨ js "\n…(truncated)" <:+ buildProfileContext fmtD user clips playlists) := by
  cases user with
  | none =>
    refine ⟨?_, Or.inl rfl⟩
    show (js "No user logged in.").length ≤ 18000
    decide
  | some u =>
    have hred : buildProfileContext fmtD (some u) clips playlists =
        (if 18000 < (profileBody fmtD u clips playlists).length then
          (profileBody fmtD u clips playlists).take 17900 ++ js "\n…(truncated)"
        else profileBody fmtD u clips playlists) := rfl
    rw [hred]
    split <;> rename_i h
    · refine ⟨?_, Or.inr (Or.inr (List.suffix_append _ _))⟩
      have hmark : (js "\n…(truncated)").length = 13 := by decide
      rw [List.length_append, List.length_take, hmark]
      omega
    · exact ⟨by omega, Or.inr (Or.inl ⟨u, rfl, rfl⟩)⟩

/-!
## `getEmbedInfo` (`src/Dashboard.jsx`)

The host's `new URL(...)` parser is passed as a parameter
`parseURL : JStr → Option URLRec`; `none` models the constructor
throwing on a non-parseable input.
-/

structure URLRec where
  hostname : JStr
  pathname : JStr
  searchV : Option JStr
deriving DecidableEq

structure EmbedInfo where
  site : JStr
  embedUrl : Option JStr
  embedable : Bool
  watchUrl : Option JStr
deriving DecidableEq

/-- Line-terminator code units, which the regex `.` does not match. -/
def lineTerm (c : Nat) : Bool := c == 10 || c == 13 || c == 8232 || c == 8233

/-- Match of `/\.(ext)(\?.*)?$/` against a (lowercased) string: either the
string ends with `.ext`, or it contains `.ext?` whose remainder is free
of line terminators. -/
def fileExtMatch (l ext : JStr) : Bool :=
  (js "." ++ ext).isSuffixOf l ||
  l.tails.any (fun t =>
    (js "." ++ ext ++ js "?").isPrefixOf t &&
    (t.drop (ext.length + 2)).all (fun c => !lineTerm c))

/-- Model of `url.match(/\.(mp4|webm|ogg)(\?.*)?$/i)`. -/
def isVideoFileUrl (url : JStr) : Bool :=
  fileExtMatch (jsToLower url) (js "mp4") ||
  fileExtMatch (jsToLower url) (js "webm") ||
  fileExtMatch (jsToLower url) (js "ogg")

/-- The `'/'` code unit. -/
def slashC : Nat := 47

/-- Model of `const host = u.hostname.toLowerCase()`. -/
def hostOf (u : URLRec) : JStr := jsToLower u.hostname

/-- YouTube id: `u.searchParams.get("v") || u.pathname.split("/")[1]`. -/
def ytIdOf (u : URLRec) : JStr :=
  jsOr (u.searchV.getD []) ((jsSplit slashC u.pathname).getD 1 [])

/-- Model of `u.pathname.split("/").filter(Boolean).pop()` (Vimeo/Dailymotion id). -/
def lastSegOf (u : URLRec) : JStr :=
  ((jsSplit slashC u.pathname).filter (fun s => !s.isEmpty)).getLast?.getD []

/-- Model of `u.pathname.split("/").filter(Boolean)[1]` (Metacafe id). -/
def seg1Of (u : URLRec) : JStr :=
  ((jsSplit slashC u.pathname).filter (fun s => !s.isEmpty)).getD 1 []

/-- The body of `getEmbedInfo`'s `try` block once the URL has parsed:
site detection with fall-through to the "Others" shape when a host
matches but no id can be extracted. -/
def embedOfParsed (u : URLRec) (url : JStr) : EmbedInfo :=
  if (infixB (js "youtube.com") (hostOf u) || hostOf u == js "youtu.be") &&
      !(ytIdOf u).isEmpty then
    ⟨js "youtube", some (js "https://www.youtube.com/embed/" ++ ytIdOf u), true,
      some (js "https://www.youtube.com/watch?v=" ++ ytIdOf u)⟩
  else if infixB (js "vimeo.com") (hostOf u) && !(lastSegOf u).isEmpty then
    ⟨js "vimeo", some (js "https://player.vimeo.com/video/" ++ lastSegOf u), true,
      some (js "https://vimeo.com/" ++ lastSegOf u)⟩
  else if (infixB (js "dailymotion.com") (hostOf u) || infixB (js "dai.ly") (hostOf u)) &&
      !(lastSegOf u).isEmpty then
    ⟨js "dailymotion", some (js "https://www.dailymotion.com/embed/video/" ++ lastSegOf u),
      true, some (js "https://" ++ hostOf u ++ js "/video/" ++ lastSegOf u)⟩
  else if infixB (js "metacafe.com") (hostOf u) && !(seg1Of u).isEmpty then
    ⟨js "metacafe", some (js "https://www.metacafe.com/embed/" ++ seg1Of u ++ js "/"), true,
      some url⟩
  else if isVideoFileUrl url then ⟨js "file", some url, true, some url⟩
  else ⟨hostOf u, some url, false, some url⟩

/-- Model of `getEmbedInfo(rawUrl)`: empty input, unparseable input, and the
parsed case above. -/
def getEmbedInfo (parseURL : JStr → Option URLRec) (rawUrl : JStr) : EmbedInfo :=
  if rawUrl.isEmpty then ⟨js "unknown", none, false, none⟩
  else
    match parseURL (jsTrim rawUrl) with
    | none => ⟨js "invalid", none, false, none⟩
    | some u => embedOfParsed u (jsTrim rawUrl)

theorem embedOfParsed_shape (u : URLRec) (url : JStr) :
    (embedOfParsed u url).embedable = false ∨ (embedOfParsed u url).embedUrl.isSome = true := by
  unfold embedOfParsed
  split_ifs <;> simp

/-- Claim C8: `getEmbedInfo` is total (the Lean embedding is a total
function into the `{site, embedUrl, embedable, watchUrl}` record, so it
never throws); whenever `embedable` is true the `embedUrl` is non-null;
the empty input yields site `"unknown"` with null `embedUrl` and
`embedable:false`; and a non-empty input on which the URL parser throws
yields site `"invalid"` with null `embedUrl` and `embedable:false`. -/
theorem getEmbedInfo_total_shape (p p2 : JStr → Option URLRec) (url url2 : JStr)
    (hparse : p2 (jsTrim url2) = none) (hne : url2 ≠ []) :
    ((getEmbedInfo p url).embedable = false ∨ (getEmbedInfo p url).embedUrl.isSome = true)
    ∧ getEmbedInfo p [] = ⟨js "unknown", none, false, none⟩
    ∧ getEmbedInfo p2 url2 = ⟨js "invalid", none, false, none⟩ := by
  refine ⟨?_, rfl, ?_⟩
  · unfold getEmbedInfo
    split
    · exact Or.inl rfl
    · cases hp : p (jsTrim url) with
      | none => exact Or.inl rfl
      | some u => exact embedOfParsed_shape u (jsTrim url)
  · unfold getEmbedInfo
    rw [if_neg (by simpa using hne)]
    simp only [hparse]

/-- A concrete stand-in for the host URL parser: parses exactly one
YouTube short link and throws on everything else. -/
def witParse : JStr → Option URLRec := fun s =>
  if s == js "https://youtu.be/abc" then some ⟨js "youtu.be", js "/abc", none⟩ else none

/-- Witness for C8 at concrete inputs: a parsed YouTube link (embedable,
so its embed URL is present), the empty input, and a non-empty
unparseable input. -/
theorem getEmbedInfo_total_shape_witness :
    ((getEmbedInfo witParse (js "https://youtu.be/abc")).embedable = false
      ∨ (getEmbedInfo witParse (js "https://youtu.be/abc")).embedUrl.isSome = true)
    ∧ getEmbedInfo witParse [] = ⟨js "unknown", none, false, none⟩
    ∧ getEmbedInfo (fun _ => none) (js "notaurl") = ⟨js "invalid", none, false, none⟩ :=
  getEmbedInfo_total_shape witParse (fun _ => none) (js "https://youtu.be/abc")
    (js "notaurl") rfl (by decide)
